import Mathlib

/-!
# Verification of the Thumb War server (`src/server.js`)

A shallow embedding of the authoritative game-session logic of `server.js`:
room registry, role assignment, the join / input / disconnect handlers and the
fixed-timestep simulation `tickRoom`.  JavaScript numbers are modelled as exact
rationals (`ℚ`); the only place where an irrational value can arise in the
source — the `Math.hypot` normalization of the input direction vector — is
modelled separately over `ℝ` (`storedVelocity` below).  The contact test
`Math.hypot(dx, dy) < radius * 1.4` of `tickRoom` is modelled by the
equivalent squared comparison `dx^2 + dy^2 < (radius * 1.4)^2` (both sides of
the source comparison are nonnegative since `radius = 30 > 0`), which keeps
the room model computable.
-/

namespace ThumbWar

/-- The fixed 3-seat role enumeration: `'P1' | 'P2' | 'P3'` in `server.js`. -/
inductive Role where
  | P1 : Role
  | P2 : Role
  | P3 : Role
deriving DecidableEq, Repr

/-- A player record, as built in the `joinRoom` handler:
`{ id, role, x, y, vx, vy, pressing, pinTimer, thumbFile, z }`.
The numeric `z` tier is kept as a natural number exactly as in the source
(`0` or `1` in every reachable state), since `tickRoom` compares it with `>`. -/
structure Player where
  id : String
  role : Role
  x : ℚ
  y : ℚ
  vx : ℚ
  vy : ℚ
  pressing : Bool
  pinTimer : ℚ
  thumbFile : String
  z : ℕ
deriving DecidableEq, Repr

/-- A room, as created by `createRoomIfNeeded`:
`{ players, width, height, radius, winPinSeconds, winner }` plus the
`interval` field that the handlers attach (`room.interval`); the model keeps
only whether the tick interval is currently scheduled. `players` is an
insertion-ordered association list keyed by `Player.id`, mirroring a
JavaScript object keyed by `socket.id` (whose `Object.values` order is
insertion order). -/
structure Room where
  players : List Player
  width : ℚ
  height : ℚ
  radius : ℚ
  winPinSeconds : ℚ
  winner : Option Role
  interval : Bool
deriving DecidableEq, Repr

/-- The process-wide `rooms` map: an insertion-ordered association list
modelling the JavaScript `Map` from room code to room. -/
abbrev Registry := List (String × Room)

/-- `rooms.get(roomId)` on the registry. -/
def lookupRoom (rooms : Registry) (rid : String) : Option Room :=
  (rooms.find? (fun e => e.1 == rid)).map (fun e => e.2)

/-- `rooms.set(roomId, room)`: replace in place if the key is present
(JavaScript `Map.set` keeps the original insertion position), else append. -/
def setRoom (rooms : Registry) (rid : String) (room : Room) : Registry :=
  match rooms with
  | [] => [(rid, room)]
  | e :: rest => if e.1 = rid then (rid, room) :: rest else e :: setRoom rest rid room

/-- `rooms.delete(roomId)`. -/
def removeRoom (rooms : Registry) (rid : String) : Registry :=
  rooms.filter (fun e => !(e.1 == rid))

/-- The default room configuration of `createRoomIfNeeded`:
`width: 800, height: 500, radius: 30, winPinSeconds: 2.0, winner: null`,
no players and no scheduled interval. -/
def freshRoom : Room :=
  { players := []
    width := 800
    height := 500
    radius := 30
    winPinSeconds := 2
    winner := none
    interval := false }

/-- `createRoomIfNeeded(roomId)`: create a room with the default
configuration if the code is absent from the registry. -/
def createRoomIfNeeded (rooms : Registry) (rid : String) : Registry :=
  match lookupRoom rooms rid with
  | some _ => rooms
  | none => setRoom rooms rid freshRoom

/-- `assignRole(room)`: scan the fixed ordered seat list `P1, P2, P3` and
return the first role not currently held by any player of the room, or
`none` when all three are held. -/
def assignRole (room : Room) : Option Role :=
  let roles := room.players.map (·.role)
  if ¬ roles.contains Role.P1 then some Role.P1
  else if ¬ roles.contains Role.P2 then some Role.P2
  else if ¬ roles.contains Role.P3 then some Role.P3
  else none

/-- `room.players[socket.id] = {...}` on the insertion-ordered player list:
replace the entry with the same id in place, else append. -/
def setPlayer (l : List Player) (p : Player) : List Player :=
  match l with
  | [] => [p]
  | q :: rest => if q.id = p.id then p :: rest else q :: setPlayer rest p

/-- `room.players[sid]` lookup. -/
def findPlayer (l : List Player) (sid : String) : Option Player :=
  l.find? (fun p => p.id == sid)

/-- `delete room.players[socket.id]`. -/
def removePlayer (l : List Player) (sid : String) : List Player :=
  l.filter (fun p => !(p.id == sid))

/-- The room-code normalization of the `joinRoom` handler:
`String(rid || '').trim().toUpperCase()` — strip whitespace from both ends,
then upper-case, spelled out over the character list. -/
def normalizeRoomId (rid : String) : String :=
  String.mk
    ((((rid.data.dropWhile Char.isWhitespace).reverse.dropWhile
        Char.isWhitespace).reverse).map Char.toUpper)

/-- The synchronous `ack` payload of the `joinRoom` handler: `ok`, the
assigned role on success, and the error string on failure (the arena
configuration echoed on success is fixed per room and omitted here). -/
structure JoinAck where
  ok : Bool
  role : Option Role
  err : Option String
deriving DecidableEq, Repr

/-- The spawn positions of the `joinRoom` handler:
`P1: (0.2·w, 0.5·h), P2: (0.5·w, 0.5·h), P3: (0.8·w, 0.5·h)`. -/
def spawnPos (room : Room) : Role → ℚ × ℚ
  | Role.P1 => (room.width * (2/10), room.height * (5/10))
  | Role.P2 => (room.width * (5/10), room.height * (5/10))
  | Role.P3 => (room.width * (8/10), room.height * (5/10))

/-- The avatar reference stored on join:
`(data && data.thumbFile) || 'thumb1.png'` — the default `'thumb1.png'` is
used when the payload is absent or its `thumbFile` is the (falsy) empty
string. -/
def chosenThumb (data : Option String) : String :=
  match data with
  | none => "thumb1.png"
  | some t => if t = "" then "thumb1.png" else t

/-- The player record built by the `joinRoom` handler for an assigned role:
seat spawn position, zero velocity, `pressing = false`, `pinTimer = 0`,
`z = 0` and the chosen avatar. -/
def joinPlayer (room : Room) (role : Role) (data : Option String) (sid : String) :
    Player :=
  { id := sid
    role := role
    x := (spawnPos room role).1
    y := (spawnPos room role).2
    vx := 0
    vy := 0
    pressing := false
    pinTimer := 0
    thumbFile := chosenThumb data
    z := 0 }

/-- The room mutation of a successful join: store the player, and — if the
room now has at least 2 players while no interval is scheduled — clear the
winner and start the tick interval (`if (playerCount >= 2 && !room.interval)
{ room.winner = null; room.interval = setInterval(...) }`). -/
def registerPlayer (room : Room) (p : Player) : Room :=
  if 2 ≤ (setPlayer room.players p).length ∧ room.interval = false then
    { room with players := setPlayer room.players p, winner := none, interval := true }
  else
    { room with players := setPlayer room.players p }

/-- The `joinRoom` handler.  Returns the new registry and the `ack` payload.
Normalize the code and reject (`'Invalid room id'`) if it is empty or longer
than 12 characters, before any state is touched; otherwise create the room if
needed, request a role (rejecting with `'Room is full'` when none is free)
and register the player.  The inner `none` branch of the room lookup is
unreachable: `createRoomIfNeeded` guarantees the room is present. -/
def joinRoom (rooms : Registry) (rid : String) (data : Option String) (sid : String) :
    Registry × JoinAck :=
  let roomId := normalizeRoomId rid
  if roomId = "" ∨ roomId.length > 12 then
    (rooms, ⟨false, none, some "Invalid room id"⟩)
  else
    let rooms1 := createRoomIfNeeded rooms roomId
    match lookupRoom rooms1 roomId with
    | none => (rooms1, ⟨false, none, none⟩)
    | some room =>
      match assignRole room with
      | none => (rooms1, ⟨false, none, some "Room is full"⟩)
      | some role =>
        (setRoom rooms1 roomId (registerPlayer room (joinPlayer room role data sid)),
         ⟨true, some role, none⟩)

/-- The state mutation of the `input` handler after its guards: store the
velocity and the `pressing` flag on the sender, and apply the z-tier rule —
`pressing` raises the sender (`z = 1`) and lowers every other player
(`z = 0`); releasing lowers only the sender.  The velocity `(vx, vy)` is the
value computed by the handler's normalization (`storedVelocity` below models
that computation over `ℝ`; it is irrational for diagonal input, so the
rational room model takes the resulting velocity as a parameter). -/
def inputUpdate (room : Room) (sid : String) (vx vy : ℚ) (pressing : Bool) : Room :=
  { room with
    players := room.players.map (fun p =>
      if p.id = sid then
        { p with vx := vx, vy := vy, pressing := pressing,
                 z := if pressing then 1 else 0 }
      else
        if pressing then { p with z := 0 } else p) }

/-- The `input` handler: silently ignored when the connection has no bound
room, the room does not exist, the sender is not a registered member, or the
room already has a recorded winner; otherwise apply `inputUpdate`. -/
def applyInput (rooms : Registry) (roomId? : Option String) (sid : String)
    (vx vy : ℚ) (pressing : Bool) : Registry :=
  match roomId? with
  | none => rooms
  | some roomId =>
    match lookupRoom rooms roomId with
    | none => rooms
    | some room =>
      match findPlayer room.players sid with
      | none => rooms
      | some _ =>
        if room.winner ≠ none then rooms
        else setRoom rooms roomId (inputUpdate room sid vx vy pressing)

/-- The room mutation of the `disconnect` handler: remove the player; if
membership has dropped below 2 while the interval is scheduled, stop it and
clear the winner (`if (playerCount < 2 && room.interval) { clearInterval(...);
room.interval = null; room.winner = null; }`). -/
def disconnectUpdate (room : Room) (sid : String) : Room :=
  if (removePlayer room.players sid).length < 2 ∧ room.interval = true then
    { room with players := removePlayer room.players sid,
                interval := false, winner := none }
  else
    { room with players := removePlayer room.players sid }

/-- The `disconnect` handler: ignored when the connection has no bound room
or the room is gone; otherwise apply `disconnectUpdate`, and if membership
has reached 0, destroy the room. -/
def applyDisconnect (rooms : Registry) (roomId? : Option String) (sid : String) :
    Registry :=
  match roomId? with
  | none => rooms
  | some roomId =>
    match lookupRoom rooms roomId with
    | none => rooms
    | some room =>
      if (removePlayer room.players sid).length = 0 then removeRoom rooms roomId
      else setRoom rooms roomId (disconnectUpdate room sid)

/-- `Math.min` on exact rationals (spelled out so that it evaluates by
kernel reduction). -/
def jsMin (a b : ℚ) : ℚ := if a ≤ b then a else b

/-- `Math.max` on exact rationals. -/
def jsMax (a b : ℚ) : ℚ := if a ≤ b then b else a

/-- The move-and-clamp phase of `tickRoom` for one player:
`p.x += p.vx; p.x = Math.max(radius, Math.min(width - radius, p.x))` and the
same for `y` against `height`. -/
def moveClamp (room : Room) (p : Player) : Player :=
  { p with
    x := jsMax room.radius (jsMin (room.width - room.radius) (p.x + p.vx))
    y := jsMax room.radius (jsMin (room.height - room.radius) (p.y + p.vy)) }

/-- One inner iteration of the pin loop of `tickRoom` on an unordered pair:
if the pair is in contact (`Math.hypot(a.x-b.x, a.y-b.y) < radius * 1.4`,
modelled as the equivalent squared comparison), a member on the higher z tier
that is pressing gains `dt` on its pin timer and any other member decays by
`dt * 0.5` floored at 0; out of contact both decay.  Only the pin timers
change, and `b`'s branch reads `a`'s unmodified `z`/`pressing` fields exactly
as the source does. -/
def pinPair (room : Room) (dt : ℚ) (a b : Player) : Player × Player :=
  if (a.x - b.x) ^ 2 + (a.y - b.y) ^ 2 < (room.radius * (14/10)) ^ 2 then
    ((if b.z < a.z ∧ a.pressing then { a with pinTimer := a.pinTimer + dt }
      else { a with pinTimer := jsMax 0 (a.pinTimer - dt * (5/10)) }),
     (if a.z < b.z ∧ b.pressing then { b with pinTimer := b.pinTimer + dt }
      else { b with pinTimer := jsMax 0 (b.pinTimer - dt * (5/10)) }))
  else
    ({ a with pinTimer := jsMax 0 (a.pinTimer - dt * (5/10)) },
     { b with pinTimer := jsMax 0 (b.pinTimer - dt * (5/10)) })

/-- Apply `pinPair` to positions `i < j` of the player array, writing both
updated members back (the source mutates `playersArr[i]` and
`playersArr[j]` in place). -/
def updatePair (room : Room) (dt : ℚ) (l : List Player) (i j : ℕ) : List Player :=
  match l.get? i, l.get? j with
  | some a, some b =>
    (l.set i (pinPair room dt a b).1).set j (pinPair room dt a b).2
  | _, _ => l

/-- The index pairs visited by the double loop
`for i in 0..n-1, for j in i+1..n-1`, in source order. -/
def pairIndices (n : ℕ) : List (ℕ × ℕ) :=
  (List.range n).flatMap (fun i =>
    (List.range n).filterMap (fun j => if i < j then some (i, j) else none))

/-- The full pin-resolution phase of `tickRoom`: fold the in-place pair
updates over all index pairs in loop order, so that with three players each
player's timer is touched once per opposing pair, later pairs reading the
timers already updated by earlier ones. -/
def pinPhase (room : Room) (dt : ℚ) (l : List Player) : List Player :=
  (pairIndices l.length).foldl (fun acc ij => updatePair room dt acc ij.1 ij.2) l

/-- The room-level effect of one simulation step on a room with at least 2
players: integrate and clamp every player (`moveClamp`), resolve the pin
timers pairwise (`pinPhase`, `dt = 1/60`), then — if some player's timer has
reached `winPinSeconds` (`playersArr.find(p => p.pinTimer >=
room.winPinSeconds)`) while no winner is recorded — record the first such
player's role as the winner and stop the interval. -/
def tickRoomUpdate (room : Room) : Room :=
  match (pinPhase room (1/60) (room.players.map (moveClamp room))).find?
      (fun p => room.winPinSeconds ≤ p.pinTimer), room.winner with
  | some w, none =>
    { room with players := pinPhase room (1/60) (room.players.map (moveClamp room)),
                winner := some w.role, interval := false }
  | _, _ =>
    { room with players := pinPhase room (1/60) (room.players.map (moveClamp room)) }

/-- `tickRoom(roomId)`: one fixed step.  Nothing happens when the room is
gone or has fewer than 2 players; otherwise apply `tickRoomUpdate`.  (The
`state` and `end` broadcasts carry no state and are not modelled.) -/
def tickRoom (rooms : Registry) (roomId : String) : Registry :=
  match lookupRoom rooms roomId with
  | none => rooms
  | some room =>
    if room.players.length < 2 then rooms
    else setRoom rooms roomId (tickRoomUpdate room)

/-! ## The transition system

A step of the whole server is one handler invocation.  The tick case is
guarded: the platform timer fires for a room exactly while `room.interval`
is scheduled. -/

/-- One handler invocation.  `roomId` of the input/disconnect cases is the
connection's bound room code (the `roomId` closure variable of the source),
`none` when the connection never joined. -/
inductive Op where
  | join (rid : String) (data : Option String) (sid : String) : Op
  | input (roomId? : Option String) (sid : String) (vx vy : ℚ) (pressing : Bool) : Op
  | disconnect (roomId? : Option String) (sid : String) : Op
  | tick (roomId : String) : Op
deriving DecidableEq, Repr

/-- Apply one handler invocation to the registry. -/
def applyOp (rooms : Registry) : Op → Registry
  | Op.join rid data sid => (joinRoom rooms rid data sid).1
  | Op.input roomId? sid vx vy pressing => applyInput rooms roomId? sid vx vy pressing
  | Op.disconnect roomId? sid => applyDisconnect rooms roomId? sid
  | Op.tick roomId => tickRoom rooms roomId

/-- Whether a tick is currently scheduled for `rid`: the room exists and its
interval is set (a `setInterval` handle is live). -/
def tickEnabled (rooms : Registry) (rid : String) : Bool :=
  match lookupRoom rooms rid with
  | some room => room.interval
  | none => false

/-- Whether an invocation can occur: joins, inputs and disconnects can arrive
at any time; a tick fires only while its room's interval is scheduled. -/
def okOp (rooms : Registry) : Op → Bool
  | Op.tick rid => tickEnabled rooms rid
  | _ => true

/-- One transition of the server. -/
inductive Step : Registry → Registry → Prop where
  | mk (rooms : Registry) (op : Op) (h : okOp rooms op = true) :
      Step rooms (applyOp rooms op)

/-- A registry reachable from the empty initial `rooms` map by handler
invocations. -/
def Reachable (rooms : Registry) : Prop :=
  Relation.ReflTransGen Step [] rooms

/-- Run a list of invocations. -/
def runOps (rooms : Registry) : List Op → Registry
  | [] => rooms
  | op :: ops => runOps (applyOp rooms op) ops

/-- Check that every invocation of the list is possible in the state where it
fires. -/
def okRun (rooms : Registry) : List Op → Bool
  | [] => true
  | op :: ops => okOp rooms op && okRun (applyOp rooms op) ops

/-! ## The input handler's velocity computation, over `ℝ`

`me.vx = (data.right ? 1 : 0) - (data.left ? 1 : 0);`
`me.vy = (data.down ? 1 : 0) - (data.up ? 1 : 0);`
`const mag = Math.hypot(me.vx, me.vy) || 1;`
`me.vx = (me.vx / mag) * speed; me.vy = (me.vy / mag) * speed;`
with `speed = 3.2`.  The normalized magnitude is `√2` for diagonal input, so
this part of the handler is modelled over `ℝ`, as the relation between the
four direction flags and the velocity the handler stores. -/

/-- The raw x direction `(data.right ? 1 : 0) - (data.left ? 1 : 0)`. -/
def rawVx (left right : Bool) : ℤ :=
  (if right then 1 else 0) - (if left then 1 else 0)

/-- The raw y direction `(data.down ? 1 : 0) - (data.up ? 1 : 0)`. -/
def rawVy (up down : Bool) : ℤ :=
  (if down then 1 else 0) - (if up then 1 else 0)

/-- `v` is the velocity the `input` handler stores for the given direction
flags: the raw direction divided by `Math.hypot(vx, vy) || 1` (the divisor is
1 when the magnitude is the falsy 0) and scaled by the speed constant
`3.2 = 16/5`. -/
def storedVelocity (up down left right : Bool) (v : ℝ × ℝ) : Prop :=
  let vx : ℝ := (rawVx left right : ℤ)
  let vy : ℝ := (rawVy up down : ℤ)
  let m : ℝ := Real.sqrt (vx ^ 2 + vy ^ 2)
  let mag : ℝ := if m = 0 then 1 else m
  v = (vx / mag * (16/5), vy / mag * (16/5))

/-! ## A concrete run

Room `"ROOM"`, players `"A"` (seat `P1`, spawn `(160, 250)`) and `"B"`
(seat `P2`, spawn `(400, 250)`).  `A` presses and walks right at `3.2`/tick,
`B` walks left; after 31 ticks they are `41.6 < 42` apart (in contact) and
stop.  `A` then holds the pin for 99 ticks (`pinTimer = 100/60`), releases
for one tick (decay to `199/120`), presses again and holds for 21 more ticks:
on the last tick `pinTimer` reaches `241/120 ≥ 2` and `A` is recorded as the
winner, the interval being cleared.  Every velocity used is one the input
handler really produces (`±3.2` on one axis, or `0`). -/

/-- The handler invocations of the concrete run described above. -/
def endedOps : List Op :=
  [Op.join "ROOM" none "A", Op.join "ROOM" none "B",
   Op.input (some "ROOM") "A" (16/5) 0 true,
   Op.input (some "ROOM") "B" (-16/5) 0 false]
  ++ List.replicate 31 (Op.tick "ROOM")
  ++ [Op.input (some "ROOM") "A" 0 0 true, Op.input (some "ROOM") "B" 0 0 false]
  ++ List.replicate 99 (Op.tick "ROOM")
  ++ [Op.input (some "ROOM") "A" 0 0 false, Op.tick "ROOM",
      Op.input (some "ROOM") "A" 0 0 true]
  ++ List.replicate 21 (Op.tick "ROOM")

/-- The registry reached by the concrete run: the room has a recorded winner
and a stopped interval. -/
def endedRegistry : Registry := runOps [] endedOps

/-- Player `"A"` at the end of the concrete run: the recorded winner's
player, whose `pinTimer` overshot the win threshold (`241/120 > 2`). -/
def endedA : Player :=
  { id := "A", role := Role.P1, x := 1296/5, y := 250, vx := 0, vy := 0,
    pressing := true, pinTimer := 241/120, thumbFile := "thumb1.png", z := 1 }

/-- Player `"B"` at the end of the concrete run. -/
def endedB : Player :=
  { id := "B", role := Role.P2, x := 1504/5, y := 250, vx := 0, vy := 0,
    pressing := false, pinTimer := 0, thumbFile := "thumb1.png", z := 0 }

/-- The room at the end of the concrete run: two players, winner `P1`
recorded, interval stopped. -/
def endedRoom : Room :=
  { players := [endedA, endedB], width := 800, height := 500, radius := 30,
    winPinSeconds := 2, winner := some Role.P1, interval := false }

/-- The registry obtained from the ended run when a third player `"C"` joins
the room whose winner is recorded. -/
def restartedRegistry : Registry :=
  (joinRoom endedRegistry "ROOM" none "C").1

/-! ## Invariants -/

/-- Whether a player currently holds the raised/dominant tier (`z = 1`). -/
def isDominant (p : Player) : Bool := p.z == 1

/-- How many players of the room hold the dominant tier. -/
def dominantCount (room : Room) : ℕ := room.players.countP isDominant

/-- The tick interval is scheduled exactly when the room has at least two
players and no recorded winner. -/
def TickLoopConsistent (room : Room) : Prop :=
  room.interval = true ↔ 2 ≤ room.players.length ∧ room.winner = none

/-- Every pin timer of the room is nonnegative. -/
def PinsNonneg (room : Room) : Prop :=
  ∀ p ∈ room.players, 0 ≤ p.pinTimer

/-- The per-room state invariant maintained by every handler: the tick-loop
biconditional, nonnegative pin timers, at most one dominant player, and
distinct player ids. -/
def RoomInv (room : Room) : Prop :=
  TickLoopConsistent room ∧ PinsNonneg room ∧ dominantCount room ≤ 1 ∧
    (room.players.map Player.id).Nodup

/-- Every room of the registry satisfies the room invariant. -/
def RegInv (rooms : Registry) : Prop :=
  ∀ e ∈ rooms, RoomInv e.2

theorem reachable_runOps (ops : List Op) (rooms : Registry)
    (h : Reachable rooms) (hok : okRun rooms ops = true) :
    Reachable (runOps rooms ops) := by
  induction ops generalizing rooms with
  | nil => exact h
  | cons op ops ih =>
    rw [okRun, Bool.and_eq_true] at hok
    exact ih (applyOp rooms op)
      (Relation.ReflTransGen.tail h (Step.mk rooms op hok.1)) hok.2

/-! ## Lemmas about the list primitives -/

theorem jsMax_eq_max (a b : ℚ) : jsMax a b = max a b := by
  rw [jsMax, max_def]

theorem jsMin_eq_min (a b : ℚ) : jsMin a b = min a b := by
  rw [jsMin, min_def]

theorem jsMax_nonneg (b : ℚ) : 0 ≤ jsMax 0 b := by
  rw [jsMax_eq_max]; exact le_max_left 0 b

theorem mem_setRoom {rooms : Registry} {rid : String} {room : Room}
    {e : String × Room} (h : e ∈ setRoom rooms rid room) :
    e = (rid, room) ∨ e ∈ rooms := by
  induction rooms with
  | nil => simpa [setRoom] using h
  | cons f rest ih =>
    simp only [setRoom] at h
    split at h
    · rcases List.mem_cons.1 h with h | h
      · exact Or.inl h
      · exact Or.inr (List.mem_cons_of_mem _ h)
    · rcases List.mem_cons.1 h with h | h
      · exact Or.inr (h ▸ List.mem_cons_self _ _)
      · rcases ih h with h | h
        · exact Or.inl h
        · exact Or.inr (List.mem_cons_of_mem _ h)

theorem lookupRoom_setRoom_self (rooms : Registry) (rid : String) (room : Room) :
    lookupRoom (setRoom rooms rid room) rid = some room := by
  induction rooms with
  | nil => simp [setRoom, lookupRoom]
  | cons f rest ih =>
    by_cases hf : f.1 = rid
    · simp [setRoom, hf, lookupRoom]
    · simp only [setRoom, if_neg hf, lookupRoom] at ih ⊢
      rw [List.find?_cons_of_neg _ (by simpa using hf)]
      exact ih

theorem lookupRoom_mem {rooms : Registry} {rid : String} {room : Room}
    (h : lookupRoom rooms rid = some room) : ∃ e ∈ rooms, e.2 = room := by
  rw [lookupRoom] at h
  rcases Option.map_eq_some'.1 h with ⟨e, he, rfl⟩
  exact ⟨e, List.mem_of_find?_eq_some he, rfl⟩

theorem mem_removeRoom {rooms : Registry} {rid : String} {e : String × Room}
    (h : e ∈ removeRoom rooms rid) : e ∈ rooms :=
  List.mem_of_mem_filter h

theorem mem_setPlayer {l : List Player} {p q : Player}
    (h : q ∈ setPlayer l p) : q = p ∨ q ∈ l := by
  induction l with
  | nil => simpa [setPlayer] using h
  | cons r rest ih =>
    simp only [setPlayer] at h
    split at h
    · rcases List.mem_cons.1 h with h | h
      · exact Or.inl h
      · exact Or.inr (List.mem_cons_of_mem _ h)
    · rcases List.mem_cons.1 h with h | h
      · exact Or.inr (h ▸ List.mem_cons_self _ _)
      · rcases ih h with h | h
        · exact Or.inl h
        · exact Or.inr (List.mem_cons_of_mem _ h)

theorem length_setPlayer (l : List Player) (p : Player) :
    (setPlayer l p).length = l.length ∨ (setPlayer l p).length = l.length + 1 := by
  induction l with
  | nil => simp [setPlayer]
  | cons r rest ih =>
    simp only [setPlayer]
    split
    · simp
    · rcases ih with h | h <;> simp [h]

theorem length_le_setPlayer (l : List Player) (p : Player) :
    l.length ≤ (setPlayer l p).length := by
  rcases length_setPlayer l p with h | h <;> omega

theorem mem_ids_setPlayer {l : List Player} {p : Player} {x : String}
    (h : x ∈ (setPlayer l p).map Player.id) :
    x = p.id ∨ x ∈ l.map Player.id := by
  rcases List.mem_map.1 h with ⟨q, hq, rfl⟩
  rcases mem_setPlayer hq with h | h
  · exact Or.inl (by rw [h])
  · exact Or.inr (List.mem_map_of_mem _ h)

theorem nodup_ids_setPlayer {l : List Player} {p : Player}
    (h : (l.map Player.id).Nodup) : ((setPlayer l p).map Player.id).Nodup := by
  induction l with
  | nil => simp [setPlayer]
  | cons r rest ih =>
    simp only [List.map_cons, List.nodup_cons] at h
    simp only [setPlayer]
    split <;> rename_i hr
    · simp only [List.map_cons, List.nodup_cons]
      exact ⟨by rw [← hr]; exact h.1, h.2⟩
    · simp only [List.map_cons, List.nodup_cons]
      refine ⟨fun hx => ?_, ih h.2⟩
      rcases mem_ids_setPlayer hx with h' | h'
      · exact hr (by rw [h'])
      · exact h.1 h'

theorem countP_setPlayer_le {l : List Player} {p : Player} {pr : Player → Bool}
    (hp : pr p = false) : (setPlayer l p).countP pr ≤ l.countP pr := by
  induction l with
  | nil => simp [setPlayer, List.countP_cons, hp]
  | cons r rest ih =>
    rw [setPlayer]
    split
    · rw [List.countP_cons, List.countP_cons, hp]
      have h0 : (if false = true then 1 else 0) = 0 := rfl
      rw [h0]
      omega
    · rw [List.countP_cons, List.countP_cons]
      omega

theorem findPlayer_setPlayer_self (l : List Player) (p : Player) :
    findPlayer (setPlayer l p) p.id = some p := by
  induction l with
  | nil => simp [setPlayer, findPlayer]
  | cons r rest ih =>
    by_cases hr : r.id = p.id
    · simp [setPlayer, hr, findPlayer]
    · simp only [setPlayer, if_neg hr, findPlayer] at ih ⊢
      rw [List.find?_cons_of_neg _ (by simpa using hr)]
      exact ih

theorem set_get_self {α : Type _} {l : List α} {i : ℕ} {a : α}
    (h : l.get? i = some a) : l.set i a = l := by
  induction l generalizing i with
  | nil => simp at h
  | cons r rest ih =>
    cases i with
    | zero =>
      simp only [List.get?] at h
      cases h
      rfl
    | succ i =>
      simp only [List.get?] at h
      simp [List.set, ih h]

/-! ## Lemmas about the simulation phases -/

theorem pinPair_fst_id (room : Room) (dt : ℚ) (a b : Player) :
    (pinPair room dt a b).1.id = a.id := by
  rw [pinPair]
  split_ifs <;> rfl

theorem pinPair_snd_id (room : Room) (dt : ℚ) (a b : Player) :
    (pinPair room dt a b).2.id = b.id := by
  rw [pinPair]
  split_ifs <;> rfl

theorem pinPair_fst_isDominant (room : Room) (dt : ℚ) (a b : Player) :
    isDominant (pinPair room dt a b).1 = isDominant a := by
  rw [pinPair]
  split_ifs <;> rfl

theorem pinPair_snd_isDominant (room : Room) (dt : ℚ) (a b : Player) :
    isDominant (pinPair room dt a b).2 = isDominant b := by
  rw [pinPair]
  split_ifs <;> rfl

theorem pinPair_fst_pin_nonneg (room : Room) (dt : ℚ) (a b : Player)
    (ha : 0 ≤ a.pinTimer) (hdt : 0 ≤ dt) :
    0 ≤ (pinPair room dt a b).1.pinTimer := by
  rw [pinPair]
  split_ifs
  · exact add_nonneg ha hdt
  · exact add_nonneg ha hdt
  · exact jsMax_nonneg _
  · exact jsMax_nonneg _
  · exact jsMax_nonneg _

theorem pinPair_snd_pin_nonneg (room : Room) (dt : ℚ) (a b : Player)
    (hb : 0 ≤ b.pinTimer) (hdt : 0 ≤ dt) :
    0 ≤ (pinPair room dt a b).2.pinTimer := by
  rw [pinPair]
  split_ifs
  · exact add_nonneg hb hdt
  · exact jsMax_nonneg _
  · exact add_nonneg hb hdt
  · exact jsMax_nonneg _
  · exact jsMax_nonneg _

theorem get?_map_of_get? {α β : Type _} (f : α → β) {l : List α} {i : ℕ} {a : α}
    (h : l.get? i = some a) : (l.map f).get? i = some (f a) := by
  rw [List.get?_eq_getElem?] at h ⊢
  rw [List.getElem?_map, h]
  rfl

theorem mem_of_get? {α : Type _} {l : List α} {i : ℕ} {a : α}
    (h : l.get? i = some a) : a ∈ l := by
  exact List.get?_mem h

theorem length_updatePair (room : Room) (dt : ℚ) (l : List Player) (i j : ℕ) :
    (updatePair room dt l i j).length = l.length := by
  unfold updatePair
  split
  · simp
  · rfl

theorem map_updatePair {β : Type _} (f : Player → β) (room : Room) (dt : ℚ)
    (hf1 : ∀ a b, f (pinPair room dt a b).1 = f a)
    (hf2 : ∀ a b, f (pinPair room dt a b).2 = f b)
    (l : List Player) (i j : ℕ) :
    (updatePair room dt l i j).map f = l.map f := by
  unfold updatePair
  split
  · rename_i a b ha hb
    rw [List.map_set, List.map_set, hf1, hf2,
        set_get_self (get?_map_of_get? f ha)]
    exact set_get_self (get?_map_of_get? f hb)
  · rfl

theorem pins_updatePair (room : Room) (dt : ℚ) (l : List Player) (i j : ℕ)
    (hdt : 0 ≤ dt) (h : ∀ p ∈ l, 0 ≤ p.pinTimer) :
    ∀ p ∈ updatePair room dt l i j, 0 ≤ p.pinTimer := by
  unfold updatePair
  split
  · rename_i a b ha hb
    intro p hp
    rcases List.mem_or_eq_of_mem_set hp with hp | rfl
    · rcases List.mem_or_eq_of_mem_set hp with hp | rfl
      · exact h p hp
      · exact pinPair_fst_pin_nonneg room dt a b (h a (mem_of_get? ha)) hdt
    · exact pinPair_snd_pin_nonneg room dt a b (h b (mem_of_get? hb)) hdt
  · exact h

theorem length_foldl_updatePair (room : Room) (dt : ℚ)
    (pairs : List (ℕ × ℕ)) (l : List Player) :
    (pairs.foldl (fun acc ij => updatePair room dt acc ij.1 ij.2) l).length
      = l.length := by
  induction pairs generalizing l with
  | nil => rfl
  | cons ij rest ih =>
    rw [List.foldl_cons, ih, length_updatePair]

theorem map_foldl_updatePair {β : Type _} (f : Player → β) (room : Room) (dt : ℚ)
    (hf1 : ∀ a b, f (pinPair room dt a b).1 = f a)
    (hf2 : ∀ a b, f (pinPair room dt a b).2 = f b)
    (pairs : List (ℕ × ℕ)) (l : List Player) :
    (pairs.foldl (fun acc ij => updatePair room dt acc ij.1 ij.2) l).map f
      = l.map f := by
  induction pairs generalizing l with
  | nil => rfl
  | cons ij rest ih =>
    rw [List.foldl_cons, ih, map_updatePair f room dt hf1 hf2]

theorem pins_foldl_updatePair (room : Room) (dt : ℚ) (hdt : 0 ≤ dt)
    (pairs : List (ℕ × ℕ)) (l : List Player) (h : ∀ p ∈ l, 0 ≤ p.pinTimer) :
    ∀ p ∈ pairs.foldl (fun acc ij => updatePair room dt acc ij.1 ij.2) l,
      0 ≤ p.pinTimer := by
  induction pairs generalizing l with
  | nil => exact h
  | cons ij rest ih =>
    rw [List.foldl_cons]
    exact ih _ (pins_updatePair room dt l ij.1 ij.2 hdt h)

theorem length_pinPhase (room : Room) (dt : ℚ) (l : List Player) :
    (pinPhase room dt l).length = l.length :=
  length_foldl_updatePair room dt _ l

theorem ids_pinPhase (room : Room) (dt : ℚ) (l : List Player) :
    (pinPhase room dt l).map Player.id = l.map Player.id :=
  map_foldl_updatePair Player.id room dt
    (pinPair_fst_id room dt) (pinPair_snd_id room dt) _ l

theorem isDominant_pinPhase (room : Room) (dt : ℚ) (l : List Player) :
    (pinPhase room dt l).map isDominant = l.map isDominant :=
  map_foldl_updatePair isDominant room dt
    (pinPair_fst_isDominant room dt) (pinPair_snd_isDominant room dt) _ l

theorem pins_pinPhase (room : Room) (dt : ℚ) (hdt : 0 ≤ dt) (l : List Player)
    (h : ∀ p ∈ l, 0 ≤ p.pinTimer) : ∀ p ∈ pinPhase room dt l, 0 ≤ p.pinTimer :=
  pins_foldl_updatePair room dt hdt _ l h

theorem countP_eq_of_map_eq {α : Type _} {l₁ l₂ : List α} {p : α → Bool}
    (h : l₁.map p = l₂.map p) : l₁.countP p = l₂.countP p := by
  have h1 : (l₁.map p).countP (fun x => x) = (l₂.map p).countP (fun x => x) := by
    rw [h]
  rwa [List.countP_map, List.countP_map] at h1

theorem ids_map_moveClamp (room : Room) (l : List Player) :
    (l.map (moveClamp room)).map Player.id = l.map Player.id := by
  rw [List.map_map]
  rfl

theorem isDominant_map_moveClamp (room : Room) (l : List Player) :
    (l.map (moveClamp room)).map isDominant = l.map isDominant := by
  rw [List.map_map]
  rfl

theorem pins_map_moveClamp (room : Room) (l : List Player)
    (h : ∀ p ∈ l, 0 ≤ p.pinTimer) :
    ∀ p ∈ l.map (moveClamp room), 0 ≤ p.pinTimer := by
  intro p hp
  rcases List.mem_map.1 hp with ⟨q, hq, rfl⟩
  exact h q hq

theorem countP_id_eq_le_one {l : List Player} {sid : String}
    (h : (l.map Player.id).Nodup) :
    l.countP (fun r => r.id == sid) ≤ 1 := by
  induction l with
  | nil => simp
  | cons r rest ih =>
    simp only [List.map_cons, List.nodup_cons] at h
    rw [List.countP_cons]
    by_cases hr : r.id = sid
    · have h0 : rest.countP (fun q => q.id == sid) = 0 := by
        rw [List.countP_eq_zero]
        intro q hq hq'
        exact h.1 (by
          rw [beq_iff_eq] at hq'
          rw [← hr] at hq'
          exact hq' ▸ List.mem_map_of_mem Player.id hq)
      simp [h0, hr]
    · have hr' : (r.id == sid) = false := by simpa using hr
      rw [hr']
      have hff : (if ((false : Bool) = true) then (1 : ℕ) else 0) = 0 := rfl
      rw [hff]
      have := ih h.2
      omega

/-! ## Preservation of the room invariant -/

theorem roomInv_freshRoom : RoomInv freshRoom := by
  refine ⟨?_, ?_, ?_, ?_⟩
  · simp [TickLoopConsistent, freshRoom]
  · intro p hp
    simp [freshRoom] at hp
  · simp [dominantCount, freshRoom]
  · simp [freshRoom]

theorem roomInv_registerPlayer (room : Room) (p : Player)
    (hinv : RoomInv room) (hp0 : 0 ≤ p.pinTimer) (hpz : isDominant p = false) :
    RoomInv (registerPlayer room p) := by
  obtain ⟨htick, hpins, hdom, hnodup⟩ := hinv
  have hpins' : ∀ q ∈ setPlayer room.players p, 0 ≤ q.pinTimer := by
    intro q hq
    rcases mem_setPlayer hq with rfl | hq
    · exact hp0
    · exact hpins q hq
  have hdom' : (setPlayer room.players p).countP isDominant ≤ 1 :=
    le_trans (countP_setPlayer_le hpz) hdom
  have hnodup' := nodup_ids_setPlayer (p := p) hnodup
  rw [registerPlayer]
  split <;> rename_i hcond
  · exact ⟨by simp [TickLoopConsistent, hcond.1], hpins', hdom', hnodup'⟩
  · refine ⟨?_, hpins', hdom', hnodup'⟩
    rw [TickLoopConsistent] at htick ⊢
    cases hI : room.interval with
    | true =>
      simp only [hI, true_iff] at htick
      constructor
      · intro _
        exact ⟨le_trans htick.1 (length_le_setPlayer _ _), htick.2⟩
      · intro _
        rfl
    | false =>
      have hlen : ¬ 2 ≤ (setPlayer room.players p).length := fun h2 =>
        hcond ⟨h2, hI⟩
      constructor
      · intro h
        exact absurd h (by simp [hI])
      · intro h
        exact absurd h.1 hlen

theorem roomInv_inputUpdate (room : Room) (sid : String) (vx vy : ℚ)
    (pressing : Bool) (hinv : RoomInv room) :
    RoomInv (inputUpdate room sid vx vy pressing) := by
  obtain ⟨htick, hpins, hdom, hnodup⟩ := hinv
  have hids : ((inputUpdate room sid vx vy pressing).players).map Player.id
      = room.players.map Player.id := by
    rw [inputUpdate, List.map_map]
    refine List.map_congr_left ?_
    intro q _
    simp only [Function.comp_apply]
    split
    · rfl
    · split <;> rfl
  refine ⟨?_, ?_, ?_, ?_⟩
  · rw [TickLoopConsistent] at htick ⊢
    have hlen : (inputUpdate room sid vx vy pressing).players.length
        = room.players.length := by
      rw [inputUpdate, List.length_map]
    rw [show (inputUpdate room sid vx vy pressing).interval = room.interval from rfl,
        show (inputUpdate room sid vx vy pressing).winner = room.winner from rfl,
        hlen]
    exact htick
  · intro q hq
    simp only [inputUpdate] at hq
    rcases List.mem_map.1 hq with ⟨r, hr, rfl⟩
    split
    · exact hpins r hr
    · split
      · exact hpins r hr
      · exact hpins r hr
  · rw [dominantCount, inputUpdate]
    rw [List.countP_map]
    cases pressing with
    | true =>
      have hcong : room.players.countP
          (isDominant ∘ fun q => if q.id = sid then
            { q with vx := vx, vy := vy, pressing := true, z := 1 }
          else { q with z := 0 })
          = room.players.countP (fun r => r.id == sid) := by
        refine List.countP_congr ?_
        intro q _
        simp only [Function.comp_apply]
        split <;> rename_i hq
        · simp [isDominant, hq]
        · simp [isDominant, hq]
      simp only [if_true]
      rw [hcong]
      exact countP_id_eq_le_one hnodup
    | false =>
      refine le_trans (List.countP_mono_left ?_) hdom
      intro q _
      simp only [Function.comp_apply]
      split
      · intro h
        exact absurd h (by simp [isDominant])
      · exact fun h => h
  · rw [show (inputUpdate room sid vx vy pressing).players.map Player.id
        = room.players.map Player.id from hids]
    exact hnodup

theorem roomInv_disconnectUpdate (room : Room) (sid : String)
    (hinv : RoomInv room) : RoomInv (disconnectUpdate room sid) := by
  obtain ⟨htick, hpins, hdom, hnodup⟩ := hinv
  have hsub : List.Sublist (removePlayer room.players sid) room.players :=
    List.filter_sublist _
  have hpins' : ∀ q ∈ removePlayer room.players sid, 0 ≤ q.pinTimer :=
    fun q hq => hpins q (hsub.mem hq)
  have hdom' : (removePlayer room.players sid).countP isDominant ≤ 1 :=
    le_trans (hsub.countP_le isDominant) hdom
  have hnodup' : ((removePlayer room.players sid).map Player.id).Nodup :=
    hnodup.sublist (hsub.map Player.id)
  rw [disconnectUpdate]
  split <;> rename_i hcond
  · obtain ⟨hc1, hc2⟩ := hcond
    refine ⟨?_, hpins', hdom', hnodup'⟩
    rw [TickLoopConsistent]
    dsimp only
    constructor
    · intro h
      exact absurd h (by simp)
    · intro h
      exact absurd h.1 (by omega)
  · refine ⟨?_, hpins', hdom', hnodup'⟩
    rw [TickLoopConsistent] at htick ⊢
    dsimp only
    cases hI : room.interval with
    | true =>
      simp only [hI, true_iff] at htick
      have h2 : ¬ ((removePlayer room.players sid).length < 2) := fun hlt =>
        hcond ⟨hlt, hI⟩
      constructor
      · intro _
        exact ⟨by omega, htick.2⟩
      · intro _
        rfl
    | false =>
      rw [hI] at htick
      constructor
      · intro h
        exact absurd h (by simp)
      · intro h
        have h2 : 2 ≤ room.players.length := le_trans h.1 (hsub.length_le)
        exact absurd (htick.2 ⟨h2, h.2⟩) (by simp)

theorem roomInv_tickRoomUpdate (room : Room) (hinv : RoomInv room) :
    RoomInv (tickRoomUpdate room) := by
  obtain ⟨htick, hpins, hdom, hnodup⟩ := hinv
  have hlen : (pinPhase room (1/60) (room.players.map (moveClamp room))).length
      = room.players.length := by
    rw [length_pinPhase, List.length_map]
  have hids : (pinPhase room (1/60) (room.players.map (moveClamp room))).map Player.id
      = room.players.map Player.id := by
    rw [ids_pinPhase, ids_map_moveClamp]
  have hdomeq : (pinPhase room (1/60) (room.players.map (moveClamp room))).countP
      isDominant = room.players.countP isDominant :=
    countP_eq_of_map_eq (by rw [isDominant_pinPhase, isDominant_map_moveClamp])
  have hpins' : ∀ p ∈ pinPhase room (1/60) (room.players.map (moveClamp room)),
      0 ≤ p.pinTimer :=
    pins_pinPhase room _ (by norm_num) _ (pins_map_moveClamp room _ hpins)
  rw [tickRoomUpdate]
  split
  · refine ⟨?_, hpins', ?_, ?_⟩
    · rw [TickLoopConsistent]
      constructor
      · intro h
        exact absurd h (by simp)
      · intro h
        exact absurd h.2 (by simp)
    · rw [dominantCount]
      rw [show ({ room with
          players := pinPhase room (1/60) (room.players.map (moveClamp room)),
          winner := some _, interval := false } : Room).players
          = pinPhase room (1/60) (room.players.map (moveClamp room)) from rfl,
        hdomeq]
      exact hdom
    · rw [show ({ room with
          players := pinPhase room (1/60) (room.players.map (moveClamp room)),
          winner := some _, interval := false } : Room).players
          = pinPhase room (1/60) (room.players.map (moveClamp room)) from rfl,
        hids]
      exact hnodup
  · refine ⟨?_, hpins', ?_, ?_⟩
    · rw [TickLoopConsistent] at htick ⊢
      rw [show ({ room with
          players := pinPhase room (1/60) (room.players.map (moveClamp room)) }
          : Room).interval = room.interval from rfl,
        show ({ room with
          players := pinPhase room (1/60) (room.players.map (moveClamp room)) }
          : Room).winner = room.winner from rfl,
        show ({ room with
          players := pinPhase room (1/60) (room.players.map (moveClamp room)) }
          : Room).players = pinPhase room (1/60) (room.players.map (moveClamp room))
          from rfl, hlen]
      exact htick
    · rw [dominantCount]
      rw [show ({ room with
          players := pinPhase room (1/60) (room.players.map (moveClamp room)) }
          : Room).players = pinPhase room (1/60) (room.players.map (moveClamp room))
          from rfl, hdomeq]
      exact hdom
    · rw [show ({ room with
          players := pinPhase room (1/60) (room.players.map (moveClamp room)) }
          : Room).players = pinPhase room (1/60) (room.players.map (moveClamp room))
          from rfl, hids]
      exact hnodup

/-! ## Preservation of the registry invariant -/

theorem regInv_setRoom {rooms : Registry} {rid : String} {room : Room}
    (hreg : RegInv rooms) (hroom : RoomInv room) :
    RegInv (setRoom rooms rid room) := by
  intro e he
  rcases mem_setRoom he with rfl | he
  · exact hroom
  · exact hreg e he

theorem regInv_createRoomIfNeeded (rooms : Registry) (rid : String)
    (h : RegInv rooms) : RegInv (createRoomIfNeeded rooms rid) := by
  rw [createRoomIfNeeded]
  split
  · exact h
  · exact regInv_setRoom h roomInv_freshRoom

theorem regInv_lookupRoom {rooms : Registry} {rid : String} {room : Room}
    (hreg : RegInv rooms) (h : lookupRoom rooms rid = some room) :
    RoomInv room := by
  rcases lookupRoom_mem h with ⟨e, he, rfl⟩
  exact hreg e he

theorem regInv_joinRoom (rooms : Registry) (rid : String) (data : Option String)
    (sid : String) (hreg : RegInv rooms) :
    RegInv (joinRoom rooms rid data sid).1 := by
  simp only [joinRoom]
  split
  · exact hreg
  · split
    · exact regInv_createRoomIfNeeded rooms _ hreg
    · rename_i room hlook
      split
      · exact regInv_createRoomIfNeeded rooms _ hreg
      · exact regInv_setRoom (regInv_createRoomIfNeeded rooms _ hreg)
          (roomInv_registerPlayer room _
            (regInv_lookupRoom (regInv_createRoomIfNeeded rooms _ hreg) hlook)
            (le_refl 0) rfl)

theorem regInv_applyInput (rooms : Registry) (roomId? : Option String)
    (sid : String) (vx vy : ℚ) (pressing : Bool) (hreg : RegInv rooms) :
    RegInv (applyInput rooms roomId? sid vx vy pressing) := by
  rw [applyInput.eq_def]
  split
  · exact hreg
  · split
    · exact hreg
    · rename_i roomId room hlook
      split
      · exact hreg
      · split
        · exact hreg
        · exact regInv_setRoom hreg
            (roomInv_inputUpdate room sid vx vy pressing
              (regInv_lookupRoom hreg hlook))

theorem regInv_applyDisconnect (rooms : Registry) (roomId? : Option String)
    (sid : String) (hreg : RegInv rooms) :
    RegInv (applyDisconnect rooms roomId? sid) := by
  rw [applyDisconnect.eq_def]
  split
  · exact hreg
  · split
    · exact hreg
    · rename_i roomId room hlook
      split
      · intro e he
        exact hreg e (mem_removeRoom he)
      · exact regInv_setRoom hreg
          (roomInv_disconnectUpdate room sid (regInv_lookupRoom hreg hlook))

theorem regInv_tickRoom (rooms : Registry) (roomId : String)
    (hreg : RegInv rooms) : RegInv (tickRoom rooms roomId) := by
  rw [tickRoom]
  split
  · exact hreg
  · rename_i room hlook
    split
    · exact hreg
    · exact regInv_setRoom hreg
        (roomInv_tickRoomUpdate room (regInv_lookupRoom hreg hlook))

theorem regInv_applyOp (rooms : Registry) (op : Op) (h : RegInv rooms) :
    RegInv (applyOp rooms op) := by
  cases op with
  | join rid data sid => exact regInv_joinRoom rooms rid data sid h
  | input r sid vx vy pressing => exact regInv_applyInput rooms r sid vx vy pressing h
  | disconnect r sid => exact regInv_applyDisconnect rooms r sid h
  | tick r => exact regInv_tickRoom rooms r h

theorem regInv_step {rooms rooms' : Registry} (h : RegInv rooms)
    (hs : Step rooms rooms') : RegInv rooms' := by
  cases hs with
  | mk op hok => exact regInv_applyOp _ op h

theorem regInv_reachable {rooms : Registry} (h : Reachable rooms) :
    RegInv rooms := by
  rw [Reachable] at h
  induction h with
  | refl =>
    intro e he
    simp at he
  | tail h1 h2 ih => exact regInv_step ih h2

/-! ## Unfolding lemmas for the join handler -/

theorem registerPlayer_players (room : Room) (p : Player) :
    (registerPlayer room p).players = setPlayer room.players p := by
  rw [registerPlayer]
  split <;> rfl

theorem joinRoom_success (rooms : Registry) (rid : String) (data : Option String)
    (sid : String) (room : Room) (role : Role)
    (hvalid : ¬(normalizeRoomId rid = "" ∨ (normalizeRoomId rid).length > 12))
    (hlook : lookupRoom rooms (normalizeRoomId rid) = some room)
    (hrole : assignRole room = some role) :
    joinRoom rooms rid data sid =
      (setRoom rooms (normalizeRoomId rid)
         (registerPlayer room (joinPlayer room role data sid)),
       ⟨true, some role, none⟩) := by
  simp only [joinRoom, createRoomIfNeeded, hlook, hrole]
  rw [if_neg hvalid]

theorem joinRoom_create (rooms : Registry) (rid : String) (data : Option String)
    (sid : String)
    (hvalid : ¬(normalizeRoomId rid = "" ∨ (normalizeRoomId rid).length > 12))
    (hlook : lookupRoom rooms (normalizeRoomId rid) = none) :
    joinRoom rooms rid data sid =
      (setRoom (setRoom rooms (normalizeRoomId rid) freshRoom)
         (normalizeRoomId rid)
         (registerPlayer freshRoom (joinPlayer freshRoom Role.P1 data sid)),
       ⟨true, some Role.P1, none⟩) := by
  simp only [joinRoom, createRoomIfNeeded, hlook]
  rw [if_neg hvalid, lookupRoom_setRoom_self]
  rfl

theorem joinRoom_full (rooms : Registry) (rid : String) (data : Option String)
    (sid : String) (room : Room)
    (hvalid : ¬(normalizeRoomId rid = "" ∨ (normalizeRoomId rid).length > 12))
    (hlook : lookupRoom rooms (normalizeRoomId rid) = some room)
    (hrole : assignRole room = none) :
    joinRoom rooms rid data sid = (rooms, ⟨false, none, some "Room is full"⟩) := by
  simp only [joinRoom, createRoomIfNeeded, hlook, hrole]
  rw [if_neg hvalid]

/-! ## The claims -/

/-- C8: a caller-supplied room code that normalizes (trim + upper-case) to
the empty string or to more than 12 characters is rejected with the
`'Invalid room id'` validation error, no room is created, and the registry is
left exactly as it was. -/
theorem invalid_code_rejected (rooms : Registry) (rid : String)
    (data : Option String) (sid : String)
    (h : normalizeRoomId rid = "" ∨ 12 < (normalizeRoomId rid).length) :
    joinRoom rooms rid data sid = (rooms, ⟨false, none, some "Invalid room id"⟩) := by
  simp only [joinRoom]
  rw [if_pos h]

/-- Witness for C8 at a concrete 13-character code and at a whitespace-only
code: both joins are rejected and mutate nothing. -/
theorem invalid_code_rejected_witness :
    ((normalizeRoomId "ABCDEFGHIJKLM" = "" ∨
        12 < (normalizeRoomId "ABCDEFGHIJKLM").length) ∧
      joinRoom [] "ABCDEFGHIJKLM" none "S"
        = ([], ⟨false, none, some "Invalid room id"⟩)) ∧
    ((normalizeRoomId "   " = "" ∨ 12 < (normalizeRoomId "   ").length) ∧
      joinRoom [] "   " none "S" = ([], ⟨false, none, some "Invalid room id"⟩)) :=
  ⟨⟨Or.inr (by decide),
    invalid_code_rejected [] "ABCDEFGHIJKLM" none "S" (Or.inr (by decide))⟩,
   ⟨Or.inl (by decide),
    invalid_code_rejected [] "   " none "S" (Or.inl (by decide))⟩⟩

/-- C6: in a room whose clamp interval is nonempty on both axes (as with the
default configuration `radius = 30`, `width = 800`, `height = 500`), the
integrate-and-clamp phase leaves every player's `x` in
`[radius, width − radius]` and `y` in `[radius, height − radius]`, for all
prior positions and velocities; a velocity that would carry a coordinate past
a bound pins that coordinate exactly at the bound. -/
theorem move_clamp_bounds (room : Room) (p : Player)
    (hw : room.radius ≤ room.width - room.radius)
    (hh : room.radius ≤ room.height - room.radius) :
    (room.radius ≤ (moveClamp room p).x ∧
      (moveClamp room p).x ≤ room.width - room.radius) ∧
    (room.radius ≤ (moveClamp room p).y ∧
      (moveClamp room p).y ≤ room.height - room.radius) ∧
    (room.width - room.radius < p.x + p.vx →
      (moveClamp room p).x = room.width - room.radius) ∧
    (p.x + p.vx < room.radius → (moveClamp room p).x = room.radius) ∧
    (room.height - room.radius < p.y + p.vy →
      (moveClamp room p).y = room.height - room.radius) ∧
    (p.y + p.vy < room.radius → (moveClamp room p).y = room.radius) := by
  have hx : (moveClamp room p).x
      = max room.radius (min (room.width - room.radius) (p.x + p.vx)) := by
    rw [show (moveClamp room p).x
        = jsMax room.radius (jsMin (room.width - room.radius) (p.x + p.vx))
        from rfl, jsMax_eq_max, jsMin_eq_min]
  have hy : (moveClamp room p).y
      = max room.radius (min (room.height - room.radius) (p.y + p.vy)) := by
    rw [show (moveClamp room p).y
        = jsMax room.radius (jsMin (room.height - room.radius) (p.y + p.vy))
        from rfl, jsMax_eq_max, jsMin_eq_min]
  refine ⟨⟨?_, ?_⟩, ⟨?_, ?_⟩, ?_, ?_, ?_, ?_⟩
  · rw [hx]
    exact le_max_left _ _
  · rw [hx]
    exact max_le hw (min_le_left _ _)
  · rw [hy]
    exact le_max_left _ _
  · rw [hy]
    exact max_le hh (min_le_left _ _)
  · intro h
    rw [hx, min_eq_left h.le, max_eq_right hw]
  · intro h
    rw [hx, min_eq_right (le_trans h.le hw), max_eq_left h.le]
  · intro h
    rw [hy, min_eq_left h.le, max_eq_right hh]
  · intro h
    rw [hy, min_eq_right (le_trans h.le hh), max_eq_left h.le]

/-- Witness for C6: in the default room, a player at `x = 160` with
`vx = 1000` is pinned exactly at the right bound `770`, and a player at
`y = 250` with `vy = -1000` is pinned exactly at the bottom bound `30`. -/
theorem move_clamp_bounds_witness :
    freshRoom.radius
        ≤ (moveClamp freshRoom ⟨"W", Role.P1, 160, 250, 1000, -1000, false, 0, "t", 0⟩).x ∧
    (moveClamp freshRoom ⟨"W", Role.P1, 160, 250, 1000, -1000, false, 0, "t", 0⟩).x
        = freshRoom.width - freshRoom.radius ∧
    (moveClamp freshRoom ⟨"W", Role.P1, 160, 250, 1000, -1000, false, 0, "t", 0⟩).y
        = freshRoom.radius := by
  have h := move_clamp_bounds freshRoom
    ⟨"W", Role.P1, 160, 250, 1000, -1000, false, 0, "t", 0⟩
    (by norm_num [freshRoom]) (by norm_num [freshRoom])
  exact ⟨h.1.1, h.2.2.1 (by norm_num [freshRoom]),
    h.2.2.2.2.2 (by norm_num [freshRoom])⟩

/-- C3: the per-pair pin-timer rule of the simulation step, for a pair whose
z tiers are the 0/1 values of reachable states with at most one member
dominant (`z = 1`): in contact (squared distance below `(radius · 1.4)²`) a
member that is dominant and acting gains `dt` while the other member decays
by `dt · 0.5` floored at 0; if neither is dominant-and-acting both decay; out
of contact both decay regardless.  With three players the step applies the
pair update to `(0,1)`, `(0,2)`, `(1,2)` in order, each player's timer being
touched once per opposing pair, later pairs reading the already-updated
timers — the stated decomposition of `pinPhase`. -/
theorem pin_pair_rule (room : Room) (dt : ℚ) (a b c : Player)
    (hza : a.z ≤ 1) (hzb : b.z ≤ 1) (hab : ¬(a.z = 1 ∧ b.z = 1)) :
    (((a.x - b.x) ^ 2 + (a.y - b.y) ^ 2 < (room.radius * (14/10)) ^ 2 →
       (a.z = 1 ∧ a.pressing = true →
         (pinPair room dt a b).1.pinTimer = a.pinTimer + dt ∧
         (pinPair room dt a b).2.pinTimer = max 0 (b.pinTimer - dt * (5/10))) ∧
       (b.z = 1 ∧ b.pressing = true →
         (pinPair room dt a b).2.pinTimer = b.pinTimer + dt ∧
         (pinPair room dt a b).1.pinTimer = max 0 (a.pinTimer - dt * (5/10))) ∧
       (¬(a.z = 1 ∧ a.pressing = true) → ¬(b.z = 1 ∧ b.pressing = true) →
         (pinPair room dt a b).1.pinTimer = max 0 (a.pinTimer - dt * (5/10)) ∧
         (pinPair room dt a b).2.pinTimer = max 0 (b.pinTimer - dt * (5/10)))) ∧
     (¬((a.x - b.x) ^ 2 + (a.y - b.y) ^ 2 < (room.radius * (14/10)) ^ 2) →
       (pinPair room dt a b).1.pinTimer = max 0 (a.pinTimer - dt * (5/10)) ∧
       (pinPair room dt a b).2.pinTimer = max 0 (b.pinTimer - dt * (5/10)))) ∧
    pinPhase room dt [a, b, c] =
      [(pinPair room dt (pinPair room dt a b).1 c).1,
       (pinPair room dt (pinPair room dt a b).2
          (pinPair room dt (pinPair room dt a b).1 c).2).1,
       (pinPair room dt (pinPair room dt a b).2
          (pinPair room dt (pinPair room dt a b).1 c).2).2] := by
  refine ⟨⟨?_, ?_⟩, rfl⟩
  · intro hc
    refine ⟨?_, ?_, ?_⟩
    · rintro ⟨haz, hap⟩
      have hbz : b.z = 0 := by
        rcases Nat.lt_or_ge b.z 1 with h | h
        · omega
        · exact absurd ⟨haz, by omega⟩ hab
      rw [pinPair, if_pos hc,
        if_pos (show b.z < a.z ∧ a.pressing = true from ⟨by omega, hap⟩),
        if_neg (show ¬(a.z < b.z ∧ b.pressing = true) from fun h => by omega)]
      exact ⟨rfl, by rw [show ({ b with
        pinTimer := jsMax 0 (b.pinTimer - dt * (5/10)) } : Player).pinTimer
        = jsMax 0 (b.pinTimer - dt * (5/10)) from rfl, jsMax_eq_max]⟩
    · rintro ⟨hbz, hbp⟩
      have haz : a.z = 0 := by
        rcases Nat.lt_or_ge a.z 1 with h | h
        · omega
        · exact absurd ⟨by omega, hbz⟩ hab
      rw [pinPair, if_pos hc,
        if_neg (show ¬(b.z < a.z ∧ a.pressing = true) from fun h => by omega),
        if_pos (show a.z < b.z ∧ b.pressing = true from ⟨by omega, hbp⟩)]
      exact ⟨rfl, by rw [show ({ a with
        pinTimer := jsMax 0 (a.pinTimer - dt * (5/10)) } : Player).pinTimer
        = jsMax 0 (a.pinTimer - dt * (5/10)) from rfl, jsMax_eq_max]⟩
    · intro hna hnb
      have hagain : ¬(b.z < a.z ∧ a.pressing = true) := by
        rintro ⟨hlt, hp⟩
        exact hna ⟨by omega, hp⟩
      have hbgain : ¬(a.z < b.z ∧ b.pressing = true) := by
        rintro ⟨hlt, hp⟩
        exact hnb ⟨by omega, hp⟩
      rw [pinPair, if_pos hc, if_neg hagain, if_neg hbgain]
      constructor
      · rw [show ({ a with
          pinTimer := jsMax 0 (a.pinTimer - dt * (5/10)) } : Player).pinTimer
          = jsMax 0 (a.pinTimer - dt * (5/10)) from rfl, jsMax_eq_max]
      · rw [show ({ b with
          pinTimer := jsMax 0 (b.pinTimer - dt * (5/10)) } : Player).pinTimer
          = jsMax 0 (b.pinTimer - dt * (5/10)) from rfl, jsMax_eq_max]
  · intro hnc
    rw [pinPair, if_neg hnc]
    constructor
    · rw [show ({ a with
        pinTimer := jsMax 0 (a.pinTimer - dt * (5/10)) } : Player).pinTimer
        = jsMax 0 (a.pinTimer - dt * (5/10)) from rfl, jsMax_eq_max]
    · rw [show ({ b with
        pinTimer := jsMax 0 (b.pinTimer - dt * (5/10)) } : Player).pinTimer
        = jsMax 0 (b.pinTimer - dt * (5/10)) from rfl, jsMax_eq_max]

/-- Witness for C3: players `A` (dominant and pressing) and `B` of the ended
run are in contact, so the pair update grants `A` the `dt` gain and decays
`B`. -/
theorem pin_pair_rule_witness :
    (pinPair endedRoom (1/60) endedA endedB).1.pinTimer = endedA.pinTimer + 1/60 ∧
    (pinPair endedRoom (1/60) endedA endedB).2.pinTimer
      = max 0 (endedB.pinTimer - (1/60) * (5/10)) := by
  have h := pin_pair_rule endedRoom (1/60) endedA endedB endedB
    (by decide) (by decide) (by decide)
  exact (h.1.1 (by with_unfolding_all decide)).1 ⟨rfl, rfl⟩

/-- C9: the velocity the input handler stores is the raw direction vector
`(right − left, down − up)` normalized and scaled by the speed constant
`3.2`: when the raw vector is zero the normalization divisor is taken as 1
and the stored velocity is exactly zero (no division fault); otherwise the
stored velocity has magnitude exactly `3.2` and points in the raw
direction. -/
theorem input_velocity_normalized (up down left right : Bool) (v : ℝ × ℝ)
    (h : storedVelocity up down left right v) :
    ((rawVx left right = 0 ∧ rawVy up down = 0) → v = (0, 0)) ∧
    (¬(rawVx left right = 0 ∧ rawVy up down = 0) →
      v.1 ^ 2 + v.2 ^ 2 = (16/5 : ℝ) ^ 2 ∧
      ∃ t : ℝ, 0 < t ∧ v.1 = t * (rawVx left right : ℝ) ∧
        v.2 = t * (rawVy up down : ℝ)) := by
  simp only [storedVelocity] at h
  subst h
  constructor
  · rintro ⟨h1, h2⟩
    simp [h1, h2]
  · intro hne
    have hpos : (0:ℝ) < ((rawVx left right : ℝ)) ^ 2 + ((rawVy up down : ℝ)) ^ 2 := by
      rcases not_and_or.1 hne with h1 | h1
      · have hz : ((rawVx left right : ℝ)) ≠ 0 := Int.cast_ne_zero.2 h1
        positivity
      · have hz : ((rawVy up down : ℝ)) ≠ 0 := Int.cast_ne_zero.2 h1
        positivity
    have hsne : Real.sqrt (((rawVx left right : ℝ)) ^ 2
        + ((rawVy up down : ℝ)) ^ 2) ≠ 0 := by
      rw [Real.sqrt_ne_zero']
      exact hpos
    have hspos : 0 < Real.sqrt (((rawVx left right : ℝ)) ^ 2
        + ((rawVy up down : ℝ)) ^ 2) := Real.sqrt_pos.2 hpos
    have hsq : Real.sqrt (((rawVx left right : ℝ)) ^ 2
          + ((rawVy up down : ℝ)) ^ 2) ^ 2
        = ((rawVx left right : ℝ)) ^ 2 + ((rawVy up down : ℝ)) ^ 2 :=
      Real.sq_sqrt hpos.le
    constructor
    · simp only [if_neg hsne]
      field_simp
      linear_combination (-6400 : ℝ) * hsq
    · refine ⟨(16/5 : ℝ) / Real.sqrt (((rawVx left right : ℝ)) ^ 2
        + ((rawVy up down : ℝ)) ^ 2), div_pos (by norm_num) hspos, ?_, ?_⟩
      · simp only [if_neg hsne]
        field_simp
        ring
      · simp only [if_neg hsne]
        field_simp
        ring

/-- Witness for C9: with all four direction flags false the raw vector is
zero and the stored velocity is exactly `(0, 0)`; with only `right` set the
stored velocity has magnitude `3.2` and points right. -/
theorem input_velocity_normalized_witness :
    (((rawVx false false = 0 ∧ rawVy false false = 0) →
        ((0, 0) : ℝ × ℝ) = (0, 0)) ∧
      (¬(rawVx false false = 0 ∧ rawVy false false = 0) →
        (((0, 0) : ℝ × ℝ)).1 ^ 2 + (((0, 0) : ℝ × ℝ)).2 ^ 2 = (16/5 : ℝ) ^ 2 ∧
        ∃ t : ℝ, 0 < t ∧ (((0, 0) : ℝ × ℝ)).1 = t * (rawVx false false : ℝ) ∧
          (((0, 0) : ℝ × ℝ)).2 = t * (rawVy false false : ℝ))) ∧
    (((rawVx false true = 0 ∧ rawVy false false = 0) →
        ((16/5, 0) : ℝ × ℝ) = (0, 0)) ∧
      (¬(rawVx false true = 0 ∧ rawVy false false = 0) →
        (((16/5, 0) : ℝ × ℝ)).1 ^ 2 + (((16/5, 0) : ℝ × ℝ)).2 ^ 2
            = (16/5 : ℝ) ^ 2 ∧
        ∃ t : ℝ, 0 < t ∧ (((16/5, 0) : ℝ × ℝ)).1 = t * (rawVx false true : ℝ) ∧
          (((16/5, 0) : ℝ × ℝ)).2 = t * (rawVy false false : ℝ))) := by
  constructor
  · refine input_velocity_normalized false false false false (0, 0) ?_
    simp [storedVelocity, rawVx, rawVy]
  · refine input_velocity_normalized false false false true (16/5, 0) ?_
    have h1 : ((rawVx false true : ℝ)) = 1 := by norm_num [rawVx]
    have h2 : ((rawVy false false : ℝ)) = 0 := by norm_num [rawVy]
    simp only [storedVelocity, h1, h2]
    norm_num

/-! ## Facts about the concrete run -/

set_option maxRecDepth 1000000

theorem endedOps_ok : okRun [] endedOps = true := by
  with_unfolding_all decide

theorem endedRegistry_eq : endedRegistry = [("ROOM", endedRoom)] := by
  with_unfolding_all decide

theorem endedRegistry_reachable : Reachable endedRegistry :=
  reachable_runOps endedOps []
    (by unfold Reachable; exact Relation.ReflTransGen.refl) endedOps_ok

theorem mem_endedRegistry : ("ROOM", endedRoom) ∈ endedRegistry := by
  rw [endedRegistry_eq]
  exact List.mem_singleton.2 rfl

theorem lookup_endedRegistry : lookupRoom endedRegistry "ROOM" = some endedRoom := by
  rw [endedRegistry_eq]
  with_unfolding_all decide

/-- C4: in every reachable registry, every room's tick interval is scheduled
exactly when the room has at least 2 players and no recorded winner; the
biconditional is an invariant of every join, input, disconnect and
simulation-step transition. -/
theorem tick_loop_iff (rooms : Registry) (h : Reachable rooms) :
    ∀ e ∈ rooms, (e.2.interval = true ↔
      2 ≤ e.2.players.length ∧ e.2.winner = none) :=
  fun e he => ((regInv_reachable h) e he).1

/-- Witness for C4 at the reachable ended registry: the room has 2 players
but a recorded winner, and indeed no scheduled interval. -/
theorem tick_loop_iff_witness :
    (("ROOM", endedRoom) ∈ endedRegistry) ∧
    (endedRoom.interval = true ↔
      2 ≤ endedRoom.players.length ∧ endedRoom.winner = none) :=
  ⟨mem_endedRegistry,
   tick_loop_iff endedRegistry endedRegistry_reachable
     ("ROOM", endedRoom) mem_endedRegistry⟩

/-- C2 (amended): in every reachable registry, every player's dominance
accumulator is nonnegative.  (The original upper bound by `winPinSeconds`
does not hold — see the counterexample: the gain `pinTimer += dt` is not
clamped above, so the accumulator overshoots the threshold on the winning
step.) -/
theorem pin_timer_nonneg (rooms : Registry) (h : Reachable rooms) :
    ∀ e ∈ rooms, ∀ p ∈ e.2.players, 0 ≤ p.pinTimer :=
  fun e he => ((regInv_reachable h) e he).2.1

/-- Witness for C2 at the reachable ended registry: the winner's accumulator
(`241/120`) is nonnegative. -/
theorem pin_timer_nonneg_witness :
    (("ROOM", endedRoom) ∈ endedRegistry) ∧ endedA ∈ endedRoom.players ∧
    (0:ℚ) ≤ endedA.pinTimer :=
  ⟨mem_endedRegistry, by with_unfolding_all decide,
   pin_timer_nonneg endedRegistry endedRegistry_reachable
     ("ROOM", endedRoom) mem_endedRegistry endedA
     (by with_unfolding_all decide)⟩

/-- Counterexample for C2 as stated: the ended registry is reachable (by the
concrete 159-invocation run) and its winning player's dominance accumulator
is `241/120 > 2 = winPinSeconds` — the accumulator exceeds the win
threshold, refuting the claimed upper bound. -/
theorem pin_timer_exceeds_threshold_cex :
    Reachable endedRegistry ∧
    lookupRoom endedRegistry "ROOM" = some endedRoom ∧
    endedA ∈ endedRoom.players ∧
    endedRoom.winPinSeconds < endedA.pinTimer := by
  refine ⟨endedRegistry_reachable, lookup_endedRegistry, ?_, ?_⟩
  · with_unfolding_all decide
  · with_unfolding_all decide

/-- C7: in every reachable registry at most one player per room holds the
dominant tier (`z = 1`); moreover the input handler's mutation acts as the
claim states: an input with `acting = true` raises the sender (`z := 1`) and
lowers every other player (`z := 0`), and an input with `acting = false`
lowers only the sender. -/
theorem dominant_unique (rooms : Registry) (h : Reachable rooms) :
    (∀ e ∈ rooms, e.2.players.countP isDominant ≤ 1) ∧
    (∀ (room : Room) (sid : String) (vx vy : ℚ) (p : Player), p ∈ room.players →
      (p.id = sid →
        ({ p with vx := vx, vy := vy, pressing := true, z := 1 } : Player)
          ∈ (inputUpdate room sid vx vy true).players ∧
        ({ p with vx := vx, vy := vy, pressing := false, z := 0 } : Player)
          ∈ (inputUpdate room sid vx vy false).players) ∧
      (p.id ≠ sid →
        ({ p with z := 0 } : Player) ∈ (inputUpdate room sid vx vy true).players ∧
        p ∈ (inputUpdate room sid vx vy false).players)) := by
  constructor
  · exact fun e he => ((regInv_reachable h) e he).2.2.1
  · intro room sid vx vy p hp
    constructor
    · intro hid
      constructor
      · simp only [inputUpdate]
        exact List.mem_map.2 ⟨p, hp, by simp [hid]⟩
      · simp only [inputUpdate]
        exact List.mem_map.2 ⟨p, hp, by simp [hid]⟩
    · intro hid
      constructor
      · simp only [inputUpdate]
        exact List.mem_map.2 ⟨p, hp, by simp [hid]⟩
      · simp only [inputUpdate]
        exact List.mem_map.2 ⟨p, hp, by simp [hid]⟩

/-- Witness for C7 at the reachable ended registry: exactly one of the two
players (player `A`) holds the dominant tier. -/
theorem dominant_unique_witness :
    (("ROOM", endedRoom) ∈ endedRegistry) ∧
    endedRoom.players.countP isDominant ≤ 1 :=
  ⟨mem_endedRegistry,
   (dominant_unique endedRegistry endedRegistry_reachable).1
     ("ROOM", endedRoom) mem_endedRegistry⟩

/-- C1 (amended): in every reachable registry, a room with a recorded winner
has no scheduled interval, so no simulation step can fire for it; but the
halt lasts only until the next successful join into that room that results in
membership ≥ 2 — such a join clears the winner and restarts stepping (it does
not wait for membership to drop below 2). -/
theorem winner_stops_ticks_until_join (rooms : Registry) (h : Reachable rooms)
    (c : String) (room : Room) (hl : lookupRoom rooms c = some room)
    (w : Role) (hw : room.winner = some w) :
    room.interval = false ∧ tickEnabled rooms c = false ∧
    (∀ (rid : String) (data : Option String) (sid : String),
      normalizeRoomId rid = c →
      ∀ room', lookupRoom (joinRoom rooms rid data sid).1 c = some room' →
        (joinRoom rooms rid data sid).2.ok = true →
        2 ≤ room'.players.length →
        room'.interval = true ∧ room'.winner = none) := by
  have hinv := regInv_lookupRoom (regInv_reachable h) hl
  have h1 : room.interval = false := by
    rcases Bool.eq_false_or_eq_true room.interval with ht | hf
    · have h2 := (hinv.1.1 ht).2
      rw [hw] at h2
      cases h2
    · exact hf
  have h2 : tickEnabled rooms c = false := by
    simp only [tickEnabled, hl]
    exact h1
  refine ⟨h1, h2, ?_⟩
  intro rid data sid hnorm room' hlook' hok hcount
  by_cases hvalid : (normalizeRoomId rid = "" ∨ (normalizeRoomId rid).length > 12)
  · rw [invalid_code_rejected rooms rid data sid
      (by rcases hvalid with hv | hv
          · exact Or.inl hv
          · exact Or.inr hv)] at hok
    simp at hok
  · rw [hnorm] at hvalid
    have hl' : lookupRoom rooms (normalizeRoomId rid) = some room := by
      rw [hnorm]
      exact hl
    cases hrole : assignRole room with
    | none =>
      rw [joinRoom_full rooms rid data sid room (by rw [hnorm]; exact hvalid)
        hl' hrole] at hok
      simp at hok
    | some role =>
      rw [joinRoom_success rooms rid data sid room role
        (by rw [hnorm]; exact hvalid) hl' hrole] at hlook'
      rw [hnorm, lookupRoom_setRoom_self] at hlook'
      have hroomeq : room' = registerPlayer room (joinPlayer room role data sid) :=
        (Option.some.inj hlook').symm
      subst hroomeq
      rw [registerPlayer_players] at hcount
      rw [registerPlayer, if_pos ⟨hcount, h1⟩]
      exact ⟨rfl, rfl⟩

/-- Witness for C1 at the reachable ended registry: the room's winner is
recorded and its interval is not scheduled, so no tick can fire. -/
theorem winner_stops_ticks_until_join_witness :
    endedRoom.interval = false ∧ tickEnabled endedRegistry "ROOM" = false := by
  have h := winner_stops_ticks_until_join endedRegistry endedRegistry_reachable
    "ROOM" endedRoom lookup_endedRegistry Role.P1 rfl
  exact ⟨h.1, h.2.1⟩

/-- Counterexample for C1 as stated: in the reachable ended registry the room
has a recorded winner (`P1`) and 2 players, yet the join of a third player
`"C"` — membership going from 2 to 3, never dropping below 2 — restarts
stepping (`interval = true`) and clears the winner. -/
theorem winner_restart_on_join_cex :
    Reachable endedRegistry ∧
    lookupRoom endedRegistry "ROOM" = some endedRoom ∧
    endedRoom.winner = some Role.P1 ∧
    endedRoom.players.length = 2 ∧
    (lookupRoom restartedRegistry "ROOM").map Room.interval = some true ∧
    (lookupRoom restartedRegistry "ROOM").map Room.winner = some none ∧
    (lookupRoom restartedRegistry "ROOM").map (fun r => r.players.length)
      = some 3 := by
  have hre : restartedRegistry = (joinRoom [("ROOM", endedRoom)] "ROOM" none "C").1 := by
    rw [restartedRegistry, endedRegistry_eq]
  refine ⟨endedRegistry_reachable, lookup_endedRegistry, rfl, rfl, ?_, ?_, ?_⟩
  · rw [hre]
    with_unfolding_all decide
  · rw [hre]
    with_unfolding_all decide
  · rw [hre]
    with_unfolding_all decide

/-- C5: starting from a registry in which the (valid) code's room is absent
or empty, three sequential joins by distinct connections are assigned seats
`P1`, `P2`, `P3` in that order; a fourth join while all three seats are held
is answered with the `'Room is full'` capacity error and changes nothing —
no fourth player is added. -/
theorem three_joins_then_full (R : Registry) (rid : String)
    (s1 s2 s3 s4 : String)
    (hvalid : ¬(normalizeRoomId rid = "" ∨ (normalizeRoomId rid).length > 12))
    (hempty : ∀ room, lookupRoom R (normalizeRoomId rid) = some room →
      room.players = [])
    (h12 : s1 ≠ s2) (h13 : s1 ≠ s3) (h23 : s2 ≠ s3) :
    (joinRoom R rid none s1).2 = ⟨true, some Role.P1, none⟩ ∧
    (joinRoom (joinRoom R rid none s1).1 rid none s2).2
      = ⟨true, some Role.P2, none⟩ ∧
    (joinRoom (joinRoom (joinRoom R rid none s1).1 rid none s2).1 rid none s3).2
      = ⟨true, some Role.P3, none⟩ ∧
    joinRoom (joinRoom (joinRoom (joinRoom R rid none s1).1 rid none s2).1 rid
        none s3).1 rid none s4
      = ((joinRoom (joinRoom (joinRoom R rid none s1).1 rid none s2).1 rid
          none s3).1, ⟨false, none, some "Room is full"⟩) ∧
    (∀ room, lookupRoom (joinRoom (joinRoom (joinRoom R rid none s1).1 rid
        none s2).1 rid none s3).1 (normalizeRoomId rid) = some room →
      room.players.map Player.role = [Role.P1, Role.P2, Role.P3]) := by
  have stage1 : ∃ base : Room, base.players = [] ∧
      (joinRoom R rid none s1).2 = ⟨true, some Role.P1, none⟩ ∧
      lookupRoom (joinRoom R rid none s1).1 (normalizeRoomId rid)
        = some (registerPlayer base (joinPlayer base Role.P1 none s1)) := by
    cases hl : lookupRoom R (normalizeRoomId rid) with
    | none =>
      refine ⟨freshRoom, rfl, ?_, ?_⟩
      · rw [joinRoom_create R rid none s1 hvalid hl]
      · rw [joinRoom_create R rid none s1 hvalid hl]
        exact lookupRoom_setRoom_self _ _ _
    | some room0 =>
      have hpl := hempty room0 hl
      have hrole : assignRole room0 = some Role.P1 := by
        simp [assignRole, hpl]
      refine ⟨room0, hpl, ?_, ?_⟩
      · rw [joinRoom_success R rid none s1 room0 Role.P1 hvalid hl hrole]
      · rw [joinRoom_success R rid none s1 room0 Role.P1 hvalid hl hrole]
        exact lookupRoom_setRoom_self _ _ _
  obtain ⟨base, hbase, hack1, hlook1⟩ := stage1
  have hplayers1 : (registerPlayer base (joinPlayer base Role.P1 none s1)).players
      = [joinPlayer base Role.P1 none s1] := by
    rw [registerPlayer_players, hbase]
    rfl
  have hroles1 : (registerPlayer base (joinPlayer base Role.P1 none s1)).players.map
      Player.role = [Role.P1] := by
    rw [hplayers1]
    rfl
  have hrole2 : assignRole (registerPlayer base (joinPlayer base Role.P1 none s1))
      = some Role.P2 := by
    simp [assignRole, hroles1]
  have hstep2 := joinRoom_success (joinRoom R rid none s1).1 rid none s2
    (registerPlayer base (joinPlayer base Role.P1 none s1)) Role.P2
    hvalid hlook1 hrole2
  have hack2 : (joinRoom (joinRoom R rid none s1).1 rid none s2).2
      = ⟨true, some Role.P2, none⟩ := by
    rw [hstep2]
  have hlook2 : lookupRoom (joinRoom (joinRoom R rid none s1).1 rid none s2).1
      (normalizeRoomId rid)
      = some (registerPlayer (registerPlayer base (joinPlayer base Role.P1 none s1))
          (joinPlayer (registerPlayer base (joinPlayer base Role.P1 none s1))
            Role.P2 none s2)) := by
    rw [hstep2]
    exact lookupRoom_setRoom_self _ _ _
  have hplayers2 : (registerPlayer (registerPlayer base (joinPlayer base Role.P1 none s1))
      (joinPlayer (registerPlayer base (joinPlayer base Role.P1 none s1))
        Role.P2 none s2)).players
      = [joinPlayer base Role.P1 none s1,
         joinPlayer (registerPlayer base (joinPlayer base Role.P1 none s1))
           Role.P2 none s2] := by
    rw [registerPlayer_players, hplayers1]
    simp [setPlayer, joinPlayer, h12]
  have hroles2 : (registerPlayer (registerPlayer base (joinPlayer base Role.P1 none s1))
      (joinPlayer (registerPlayer base (joinPlayer base Role.P1 none s1))
        Role.P2 none s2)).players.map Player.role = [Role.P1, Role.P2] := by
    rw [hplayers2]
    rfl
  have hrole3 : assignRole (registerPlayer
      (registerPlayer base (joinPlayer base Role.P1 none s1))
      (joinPlayer (registerPlayer base (joinPlayer base Role.P1 none s1))
        Role.P2 none s2)) = some Role.P3 := by
    simp [assignRole, hroles2]
  have hstep3 := joinRoom_success (joinRoom (joinRoom R rid none s1).1 rid none s2).1
    rid none s3
    (registerPlayer (registerPlayer base (joinPlayer base Role.P1 none s1))
      (joinPlayer (registerPlayer base (joinPlayer base Role.P1 none s1))
        Role.P2 none s2)) Role.P3
    hvalid hlook2 hrole3
  have hack3 : (joinRoom (joinRoom (joinRoom R rid none s1).1 rid none s2).1
      rid none s3).2 = ⟨true, some Role.P3, none⟩ := by
    rw [hstep3]
  set room2 := registerPlayer (registerPlayer base (joinPlayer base Role.P1 none s1))
    (joinPlayer (registerPlayer base (joinPlayer base Role.P1 none s1))
      Role.P2 none s2) with hroom2
  set room3 := registerPlayer room2 (joinPlayer room2 Role.P3 none s3) with hroom3
  have hlook3 : lookupRoom (joinRoom (joinRoom (joinRoom R rid none s1).1 rid
      none s2).1 rid none s3).1 (normalizeRoomId rid) = some room3 := by
    rw [hstep3]
    exact lookupRoom_setRoom_self _ _ _
  have hplayers3 : room3.players
      = [joinPlayer base Role.P1 none s1,
         joinPlayer (registerPlayer base (joinPlayer base Role.P1 none s1))
           Role.P2 none s2,
         joinPlayer room2 Role.P3 none s3] := by
    rw [hroom3, registerPlayer_players, hplayers2]
    simp [setPlayer, joinPlayer, h13, h23]
  have hroles3 : room3.players.map Player.role = [Role.P1, Role.P2, Role.P3] := by
    rw [hplayers3]
    rfl
  have hrole4 : assignRole room3 = none := by
    simp [assignRole, hroles3]
  refine ⟨hack1, hack2, hack3, ?_, ?_⟩
  · exact joinRoom_full _ rid none s4 room3 hvalid hlook3 hrole4
  · intro room hr
    rw [hlook3] at hr
    rw [← Option.some.inj hr]
    exact hroles3

/-- Witness for C5: in the empty registry with code `"ROOM"` and connections
`"a"`, `"b"`, `"c"`, `"d"`, the three acks carry `P1`, `P2`, `P3` and the
fourth join returns the capacity error leaving the registry unchanged. -/
theorem three_joins_then_full_witness :
    (joinRoom [] "ROOM" none "a").2 = ⟨true, some Role.P1, none⟩ ∧
    (joinRoom (joinRoom [] "ROOM" none "a").1 "ROOM" none "b").2
      = ⟨true, some Role.P2, none⟩ ∧
    (joinRoom (joinRoom (joinRoom [] "ROOM" none "a").1 "ROOM" none "b").1
        "ROOM" none "c").2 = ⟨true, some Role.P3, none⟩ ∧
    joinRoom (joinRoom (joinRoom (joinRoom [] "ROOM" none "a").1 "ROOM"
        none "b").1 "ROOM" none "c").1 "ROOM" none "d"
      = ((joinRoom (joinRoom (joinRoom [] "ROOM" none "a").1 "ROOM"
          none "b").1 "ROOM" none "c").1, ⟨false, none, some "Room is full"⟩) := by
  have h := three_joins_then_full [] "ROOM" "a" "b" "c" "d"
    (by decide)
    (by intro room hr
        simp [lookupRoom] at hr)
    (by decide) (by decide) (by decide)
  exact ⟨h.1, h.2.1, h.2.2.1, h.2.2.2.1⟩

/-- C10: a successful join whose payload carries no avatar reference (absent
payload, or the falsy empty string) registers the player with the default
avatar `'thumb1.png'`. -/
theorem default_thumb_on_join (rooms : Registry) (rid : String) (sid : String)
    (data : Option String) (hd : data = none ∨ data = some "")
    (hok : (joinRoom rooms rid data sid).2.ok = true) :
    ∃ room p, lookupRoom (joinRoom rooms rid data sid).1 (normalizeRoomId rid)
        = some room ∧ findPlayer room.players sid = some p ∧
      p.thumbFile = "thumb1.png" := by
  by_cases hvalid : (normalizeRoomId rid = "" ∨ (normalizeRoomId rid).length > 12)
  · rw [invalid_code_rejected rooms rid data sid
      (by rcases hvalid with hv | hv
          · exact Or.inl hv
          · exact Or.inr hv)] at hok
    simp at hok
  · cases hl : lookupRoom rooms (normalizeRoomId rid) with
    | none =>
      rw [joinRoom_create rooms rid data sid hvalid hl]
      refine ⟨_, joinPlayer freshRoom Role.P1 data sid,
        lookupRoom_setRoom_self _ _ _, ?_, ?_⟩
      · rw [registerPlayer_players]
        exact findPlayer_setPlayer_self freshRoom.players
          (joinPlayer freshRoom Role.P1 data sid)
      · rcases hd with rfl | rfl <;> rfl
    | some room =>
      cases hr : assignRole room with
      | none =>
        rw [joinRoom_full rooms rid data sid room hvalid hl hr] at hok
        simp at hok
      | some role =>
        rw [joinRoom_success rooms rid data sid room role hvalid hl hr]
        refine ⟨_, joinPlayer room role data sid,
          lookupRoom_setRoom_self _ _ _, ?_, ?_⟩
        · rw [registerPlayer_players]
          exact findPlayer_setPlayer_self room.players
            (joinPlayer room role data sid)
        · rcases hd with rfl | rfl <;> rfl

/-- Witness for C10: joining the empty registry with no payload stores the
default avatar. -/
theorem default_thumb_on_join_witness :
    ∃ room p, lookupRoom (joinRoom [] "ROOM" none "a").1 (normalizeRoomId "ROOM")
        = some room ∧ findPlayer room.players "a" = some p ∧
      p.thumbFile = "thumb1.png" :=
  default_thumb_on_join [] "ROOM" "a" none (Or.inl rfl) (by decide)

end ThumbWar
